import Mathlib

/-!
Verification of the inventory-management-system repository.

The repository ships a React frontend (`src/frontend-react`, plus earlier
revisions of the same components under `src/unnamed`) that talks to a
serverless query engine over HTTP.  The engine itself (Lambda + DynamoDB)
is not part of the source tree; its contract is fixed by the design
document, so the engine operations below are modelled from the spec, while
every frontend definition is a direct translation of the TypeScript source.
-/

namespace Inventory

/-! ### Frontend data model (src/frontend-react/src/components/types.tsx) -/

/-- `Object.values(CategoryEnum)` for the enum declared in
`src/frontend-react/src/components/types.tsx` lines 3-13, in declaration
order.  Note that this enum contains the value `"All"` in addition to the
eight item categories. -/
def categoryEnumValues : List String :=
  ["All", "Music", "Grocery", "Clothing", "Home", "Books", "Outdoors", "Electrics", "Beauty"]

/-- The eight item category labels, i.e. the enum of `src/unnamed/part_002`
(the revision of `types.tsx` without the `ALL` member). -/
def itemCategoryLabels : List String :=
  ["Music", "Grocery", "Clothing", "Home", "Books", "Outdoors", "Electrics", "Beauty"]

/-- The category list the `DataTableToolbar` computes
(`src/frontend-react/src/components/data-table-toolbar.tsx` line 78:
`const categories = Object.values(CategoryEnum)`); this list is passed both
to the category `Select` and to `AddItemModal`. -/
def toolbarCategories : List String := categoryEnumValues

/-- `sort` object of an `/inventories` request body. -/
structure SortSpec where
  field : String
  order : String
deriving DecidableEq, Repr

/-- `filters` object as built by the frontend (`{ category: newValue }`). -/
structure CategoryFilter where
  category : String
deriving DecidableEq, Repr

/-- `PostItemParams` of `types.tsx`: the `/inventory` POST body. -/
structure PostItemParams where
  name : String
  category : String
  price : ℚ
deriving DecidableEq, Repr

/-- `DeleteItemParams`: the `/inventory/delete` POST body. -/
structure DeleteItemParams where
  name : String
  category : String
deriving DecidableEq, Repr

/-- A table row as displayed (`InventoryTableData` of `types.tsx`). -/
structure InventoryTableData where
  name : String
  category : String
  price : ℚ
deriving DecidableEq, Repr

/-- The JavaScript object `params` passed to `fetchData`.  Call sites pass
either `{}`, `{ filters: {...} }`, or (in `src/unnamed/part_001` line 45)
a whole `PostItemParams`, whose fields are spread at top level by
`{ sort: defaultSort, ...params }`.  Absent fields are `none`. -/
structure FetchParams where
  sort : Option SortSpec := none
  filters : Option CategoryFilter := none
  name : Option String := none
  category : Option String := none
  price : Option ℚ := none
deriving DecidableEq, Repr

/-- The request body `requestData` that `fetchData` POSTs to
`/inventories`. -/
structure InventoriesBody where
  sort : SortSpec
  filters : Option CategoryFilter
  name : Option String
  category : Option String
  price : Option ℚ
deriving DecidableEq, Repr

/-- `const defaultSort = { field: "last_updated_dt", order: "desc" }`
(`page.tsx` line 21, identically in `src/unnamed/part_001` line 20). -/
def defaultSort : SortSpec := ⟨"last_updated_dt", "desc"⟩

/-- `fetchData` request construction (`page.tsx` lines 20-27):
`const requestData = { sort: defaultSort, ...params }`.  A later spread
overrides the earlier `sort` key, so a sort supplied in `params` replaces
the default; all other fields of `params` are copied through.  The same
code appears verbatim in `src/unnamed/part_001` lines 19-26. -/
def fetchData (params : FetchParams) : InventoriesBody :=
  { sort := params.sort.getD defaultSort
    filters := params.filters
    name := params.name
    category := params.category
    price := params.price }

/-! ### The two MainPage revisions, at the HTTP boundary -/

/-- JavaScript's `String.prototype.toLowerCase` over the ASCII category
labels used here: lower-case every character. -/
def toLowerStr (s : String) : String :=
  ⟨s.data.map Char.toLower⟩

/-- `onCategoryChange` of `src/frontend-react/src/components/page.tsx`
lines 14-18: an "all" category (case-insensitive) sends `{}`, any other
value sends `{ filters: { category: newValue } }`. -/
def onCategoryChangeBody (newValue : String) : InventoriesBody :=
  if toLowerStr newValue = "all" then fetchData {}
  else fetchData { filters := some ⟨newValue⟩ }

/-- `onCategoryChange` of `src/unnamed/part_001` lines 12-17: always sends
`{ filters: { category: newValue } }`, with no special case for "All". -/
def legacyOnCategoryChangeBody (newValue : String) : InventoriesBody :=
  fetchData { filters := some ⟨newValue⟩ }

/-- The refetch issued by `postItem`'s success handler in `page.tsx`
line 46: `fetchData()` with no arguments. -/
def postItemRefetchBody (_ : PostItemParams) : InventoriesBody :=
  fetchData {}

/-- The refetch issued by `postItem`'s success handler in
`src/unnamed/part_001` line 45: `fetchData(data)`, spreading the posted
item's fields into the request body. -/
def legacyPostItemRefetchBody (d : PostItemParams) : InventoriesBody :=
  fetchData { name := some d.name, category := some d.category, price := some d.price }

/-! ### Response handling (state and effects) -/

/-- Outcome of an axios call: the `.then` branch with the response data, or
the `.catch` branch with an error. -/
inductive ApiResult (α : Type) : Type
  | ok (data : α)
  | err (message : String)
deriving DecidableEq, Repr

/-- A `toast(...)` invocation's arguments. -/
structure Toast where
  title : Option String
  description : String
  duration : Option Nat
deriving DecidableEq, Repr

/-- A follow-up HTTP request issued by a handler. -/
inductive Request : Type
  | inventories (body : InventoriesBody)
  | inventoryPost (body : PostItemParams)
  | inventoryDelete (body : DeleteItemParams)
deriving DecidableEq, Repr

/-- React state of `MainPage` (`page.tsx` lines 11-12). -/
structure PageState where
  inventories : List InventoryTableData
  currentCategory : String
deriving DecidableEq, Repr

/-- Effect of `fetchData`'s response handlers (`page.tsx` lines 28-36):
on success the response data replaces `inventories`; on failure the state
is untouched and a single toast is shown.  Returns the new state, the
toasts shown, and the follow-up requests issued. -/
def fetchDataHandle (st : PageState) (res : ApiResult (List InventoryTableData)) :
    PageState × List Toast × List Request :=
  match res with
  | .ok data => ({ st with inventories := data }, [], [])
  | .err e => (st, [⟨some "Unable to fetch data", e, none⟩], [])

/-- Effect of `postItem`'s response handlers (`page.tsx` lines 41-54):
on success a toast is shown and `fetchData()` is called with no arguments;
on failure only a toast is shown. -/
def postItemHandle (st : PageState) (res : ApiResult Unit) :
    PageState × List Toast × List Request :=
  match res with
  | .ok _ =>
      (st, [⟨none, "Item was created/updated successfully", some 3000⟩],
        [.inventories (fetchData {})])
  | .err e => (st, [⟨some "Something went wrong", e, some 3000⟩], [])

/-- Effect of `deleteItem`'s response handlers (`page.tsx` lines 59-72):
on success a toast is shown and `fetchData()` is called with no arguments;
on failure only a toast is shown. -/
def deleteItemHandle (st : PageState) (res : ApiResult Unit) :
    PageState × List Toast × List Request :=
  match res with
  | .ok _ =>
      (st, [⟨none, "Item was deleted successfully!", some 3000⟩],
        [.inventories (fetchData {})])
  | .err e => (st, [⟨some "Something went wrong", e, some 3000⟩], [])

/-! ### The add-item form schema (src/unnamed/part_000, `formSchema`) -/

/-- Input of the add-item form: the category is `none` when nothing was
selected (zod's `required_error` case). -/
structure FormInput where
  name : String
  category : Option String
  price : ℚ
deriving DecidableEq, Repr

/-- `formSchema` of `src/unnamed/part_000` lines 30-40:
`name: z.string().min(2)`, `category: z.nativeEnum(CategoryEnum)` (the
nine-value enum of `types.tsx`, `"All"` included), and
`price: z.coerce.number().gt(0.1).positive()`. -/
def formSchemaAccepts (i : FormInput) : Bool :=
  decide (2 ≤ i.name.length) &&
  (match i.category with
   | none => false
   | some c => categoryEnumValues.contains c) &&
  decide (mkRat 1 10 < i.price) &&
  decide (0 < i.price)

/-! ### Query engine

The backend (Lambda functions over DynamoDB) is not part of the source
tree; the definitions below are modelled from the design document's
description of the query engine. -/

/-- Modelled from the spec: the closed set of item category labels of the
data model ("category: enumerated string from a closed set of category
labels"). -/
inductive Category : Type
  | music | grocery | clothing | home | books | outdoors | electrics | beauty
deriving DecidableEq, Repr

/-- Modelled from the spec: the string label of each category, as it
appears in requests and in the frontend enum. -/
def Category.label : Category → String
  | .music => "Music"
  | .grocery => "Grocery"
  | .clothing => "Clothing"
  | .home => "Home"
  | .books => "Books"
  | .outdoors => "Outdoors"
  | .electrics => "Electrics"
  | .beauty => "Beauty"

/-- Modelled from the spec: an inventory record (`InventoryItem` of the
data model): name, category, price, and last-updated timestamp. -/
structure InventoryItem where
  name : String
  category : Category
  price : ℚ
  last_updated_dt : Nat
deriving DecidableEq, Repr

/-- The composite natural key of a record. -/
def key (r : InventoryItem) : String × Category := (r.name, r.category)

/-- The collection invariant: no two records share the same
(name, category) pair. -/
def DistinctKeys (coll : List InventoryItem) : Prop :=
  coll.Pairwise fun a b => key a ≠ key b

instance (coll : List InventoryItem) : Decidable (DistinctKeys coll) :=
  inferInstanceAs (Decidable (List.Pairwise _ coll))

/-- Whether a record carries the given (name, category) key. -/
def sameKey (n : String) (c : Category) (r : InventoryItem) : Bool :=
  decide (r.name = n) && decide (r.category = c)

/-- Modelled from the spec: `Upsert(item)` — "if a record with the same
(name, category) exists, overwrite `price` and refresh `last_updated_dt`;
else insert a new record". -/
def upsert (n : String) (c : Category) (p : ℚ) (now : Nat)
    (coll : List InventoryItem) : List InventoryItem :=
  if coll.any (sameKey n c) then
    coll.map fun r =>
      if sameKey n c r then { r with price := p, last_updated_dt := now } else r
  else
    coll ++ [⟨n, c, p, now⟩]

/-- Modelled from the spec: `Delete(name, category)` — "removes the
matching record if present; succeeds (no-op) if absent". -/
def delete (n : String) (c : Category) (coll : List InventoryItem) :
    List InventoryItem :=
  coll.filter fun r => !(sameKey n c r)

/-- A write operation of the engine's lifecycle. -/
inductive Op : Type
  | upsert (name : String) (category : Category) (price : ℚ) (now : Nat)
  | delete (name : String) (category : Category)

/-- Apply one operation to the collection. -/
def applyOp (coll : List InventoryItem) : Op → List InventoryItem
  | .upsert n c p t => upsert n c p t coll
  | .delete n c => delete n c coll

/-- Apply a sequence of operations, starting from the given collection. -/
def applyOps (ops : List Op) (coll : List InventoryItem) : List InventoryItem :=
  ops.foldl applyOp coll

/-! #### Filtering -/

/-- Modelled from the spec: the filter set of a `Query` — "a conjunction of
zero or more of {name substring match (case-insensitive), exact category,
inclusive price range}". -/
structure QueryFilters where
  name : Option String := none
  category : Option String := none
  price_range : Option (ℚ × ℚ) := none

/-- Case-insensitive substring test. -/
def containsCI (s pat : String) : Bool :=
  decide (pat.toLower.toList <:+: s.toLower.toList)

/-- Modelled from the spec: whether a record matches every given filter;
an empty filter set matches all records. -/
def matchesFilters (f : QueryFilters) (r : InventoryItem) : Bool :=
  (match f.name with
   | none => true
   | some s => containsCI r.name s) &&
  (match f.category with
   | none => true
   | some c => decide (r.category.label = c)) &&
  (match f.price_range with
   | none => true
   | some pr => decide (pr.1 ≤ r.price) && decide (r.price ≤ pr.2))

/-! #### Sorting -/

/-- Comparison by a key, ties broken by ascending name (the deterministic
secondary order the spec requires). -/
def lexLeB {κ : Type} [LinearOrder κ] (k : InventoryItem → κ)
    (a b : InventoryItem) : Bool :=
  decide (k a < k b) || (decide (k a = k b) && decide (a.name ≤ b.name))

/-- Modelled from the spec: the total order a `Query`'s sort clause
induces on records — by the requested field, in the requested direction,
with ties broken by ascending name. -/
def sortLe (field ord : String) (a b : InventoryItem) : Bool :=
  if ord = "desc" then
    if field = "name" then lexLeB (fun r => OrderDual.toDual r.name) a b
    else if field = "category" then lexLeB (fun r => OrderDual.toDual r.category.label) a b
    else if field = "price" then lexLeB (fun r => OrderDual.toDual r.price) a b
    else lexLeB (fun r => OrderDual.toDual r.last_updated_dt) a b
  else
    if field = "name" then lexLeB (fun r => r.name) a b
    else if field = "category" then lexLeB (fun r => r.category.label) a b
    else if field = "price" then lexLeB (fun r => r.price) a b
    else lexLeB (fun r => r.last_updated_dt) a b

/-- Whether two records agree on the requested sort field. -/
def sortKeyEq (field : String) (a b : InventoryItem) : Bool :=
  if field = "name" then decide (a.name = b.name)
  else if field = "category" then decide (a.category.label = b.category.label)
  else if field = "price" then decide (a.price = b.price)
  else decide (a.last_updated_dt = b.last_updated_dt)

/-- Modelled from the spec: the full sorted result set (stable sort by the
requested field and order). -/
def sortRecords (field ord : String) (l : List InventoryItem) :
    List InventoryItem :=
  List.insertionSort (fun a b => sortLe field ord a b = true) l

/-! #### Pagination, query, aggregation -/

/-- Modelled from the spec: "pagination is 1-indexed page number plus page
size limit"; the requested page is the matching slice of the full
filtered+sorted result set. -/
def paginate {α : Type} (page limit : Nat) (l : List α) : List α :=
  (l.drop ((page - 1) * limit)).take limit

/-- Modelled from the spec: `Query(filters, pagination, sort)` — filter,
sort, then paginate, in that order. -/
def query (f : QueryFilters) (page limit : Nat) (field ord : String)
    (coll : List InventoryItem) : List InventoryItem :=
  paginate page limit (sortRecords field ord (coll.filter (matchesFilters f)))

/-- Modelled from the spec: `Aggregate(category | "all")` — the count and
summed price of the records of the given category, or of all records when
"all" is requested. -/
def aggregate (cat : String) (coll : List InventoryItem) : Nat × ℚ :=
  if cat = "all" then
    (coll.length, (coll.map fun r => r.price).sum)
  else
    ((coll.filter fun r => decide (r.category.label = cat)).length,
     ((coll.filter fun r => decide (r.category.label = cat)).map fun r => r.price).sum)

end Inventory

namespace Inventory

/-! ### Helper lemmas -/

/-- Characterisation of the add-item form schema: a submission passes iff
the name has at least two characters, a category is selected and belongs to
the `CategoryEnum` values, and the price exceeds 0.1. -/
theorem formSchemaAccepts_iff (i : FormInput) :
    formSchemaAccepts i = true ↔
      2 ≤ i.name.length ∧
      (∃ c, i.category = some c ∧ c ∈ categoryEnumValues) ∧
      mkRat 1 10 < i.price := by
  unfold formSchemaAccepts
  cases h : i.category with
  | none => simp [h]
  | some c =>
      simp only [h, Bool.and_eq_true, decide_eq_true_eq, List.elem_iff]
      constructor
      · rintro ⟨⟨⟨h1, h2⟩, h3⟩, -⟩
        exact ⟨h1, ⟨c, rfl, by simpa using h2⟩, h3⟩
      · rintro ⟨h1, ⟨c', hc', hmem⟩, h3⟩
        cases Option.some.inj hc'
        exact ⟨⟨⟨h1, by simpa using hmem⟩, h3⟩, lt_trans (by decide) h3⟩

/-! ### Claim theorems: frontend -/

/-- C5: `fetchData`'s request body carries the default sort
`{field: "last_updated_dt", order: "desc"}` exactly when the params do not
specify a sort; a sort given in the params replaces the default. -/
theorem fetchData_default_sort (params : FetchParams) :
    (params.sort = none → (fetchData params).sort = defaultSort) ∧
    (∀ s, params.sort = some s → (fetchData params).sort = s) := by
  constructor
  · intro h; simp [fetchData, h]
  · intro s h; simp [fetchData, h]

/-- Witness for C5 at concrete inputs. -/
theorem fetchData_default_sort_witness :
    (fetchData {}).sort = defaultSort ∧
    (fetchData { sort := some ⟨"price", "asc"⟩ }).sort = ⟨"price", "asc"⟩ :=
  ⟨(fetchData_default_sort {}).1 rfl,
   (fetchData_default_sort { sort := some ⟨"price", "asc"⟩ }).2 ⟨"price", "asc"⟩ rfl⟩

/-- C7: a transport failure of any of the three API calls leaves the page
state (hence the displayed inventories) unchanged, surfaces exactly one
toast, and issues no follow-up request (no retry). -/
theorem transportFailureOnlyToasts (st : PageState) (e : String) :
    fetchDataHandle st (.err e) = (st, [⟨some "Unable to fetch data", e, none⟩], []) ∧
    postItemHandle st (.err e) = (st, [⟨some "Something went wrong", e, some 3000⟩], []) ∧
    deleteItemHandle st (.err e) = (st, [⟨some "Something went wrong", e, some 3000⟩], []) :=
  ⟨rfl, rfl, rfl⟩

/-- C10: a successful `postItem` or `deleteItem` keeps `currentCategory`
unchanged and refetches `/inventories` with the default body: default
`last_updated_dt`/`desc` sort and no filters. -/
theorem successRefetchesDefaultView (st : PageState) :
    (postItemHandle st (.ok ())).1.currentCategory = st.currentCategory ∧
    (deleteItemHandle st (.ok ())).1.currentCategory = st.currentCategory ∧
    (postItemHandle st (.ok ())).2.2 = [.inventories ⟨defaultSort, none, none, none, none⟩] ∧
    (deleteItemHandle st (.ok ())).2.2 = [.inventories ⟨defaultSort, none, none, none, none⟩] :=
  ⟨rfl, rfl, rfl, rfl⟩

/-- C8 counterexample: at category value "All" the two MainPage revisions
send different `/inventories` request bodies (`page.tsx` sends no filter,
`src/unnamed/part_001` sends `filters.category = "All"`). -/
theorem mainPageEquiv_counterexample :
    onCategoryChangeBody "All" ≠ legacyOnCategoryChangeBody "All" := by
  decide

/-- C8 amended: the two MainPage revisions agree on `onCategoryChange`
exactly for category values whose lowercase form is not "all"; for
"all"-cased values, and for the refetch after every successful `postItem`,
their request bodies differ. -/
theorem mainPageEquiv_amended :
    (∀ v : String, toLowerStr v ≠ "all" →
      onCategoryChangeBody v = legacyOnCategoryChangeBody v) ∧
    (∀ v : String, toLowerStr v = "all" →
      onCategoryChangeBody v ≠ legacyOnCategoryChangeBody v) ∧
    (∀ d : PostItemParams, postItemRefetchBody d ≠ legacyPostItemRefetchBody d) := by
  refine ⟨fun v h => ?_, fun v h => ?_, fun d => ?_⟩
  · simp [onCategoryChangeBody, legacyOnCategoryChangeBody, h]
  · simp [onCategoryChangeBody, legacyOnCategoryChangeBody, h, fetchData]
  · simp [postItemRefetchBody, legacyPostItemRefetchBody, fetchData]

/-- Witness for the amended C8 at concrete inputs. -/
theorem mainPageEquiv_amended_witness :
    onCategoryChangeBody "Music" = legacyOnCategoryChangeBody "Music" ∧
    onCategoryChangeBody "all" ≠ legacyOnCategoryChangeBody "all" ∧
    postItemRefetchBody ⟨"Pen", "Music", 2⟩ ≠ legacyPostItemRefetchBody ⟨"Pen", "Music", 2⟩ :=
  ⟨mainPageEquiv_amended.1 "Music" (by decide),
   mainPageEquiv_amended.2.1 "all" (by decide),
   mainPageEquiv_amended.2.2 ⟨"Pen", "Music", 2⟩⟩

/-- C6 counterexample: the input (name "A", category "Music", price 1) has
a non-empty name, a declared category and a price above 0.1, yet the form
schema rejects it (`z.string().min(2)` requires two characters). -/
theorem formSchema_counterexample :
    formSchemaAccepts ⟨"A", some "Music", 1⟩ = false ∧
    "A" ≠ "" ∧ "Music" ∈ categoryEnumValues ∧ mkRat 1 10 < 1 := by
  refine ⟨by decide, by decide, by decide, by decide⟩

/-- C6 amended: the form schema accepts a submission iff the name has at
least two characters (not merely non-empty), the category is one of the
declared `CategoryEnum` labels, and the price is greater than 0.1. -/
theorem formSchema_validation (i : FormInput) :
    formSchemaAccepts i = true ↔
      2 ≤ i.name.length ∧
      (∃ c, i.category = some c ∧ c ∈ categoryEnumValues) ∧
      mkRat 1 10 < i.price :=
  formSchemaAccepts_iff i

/-- C9 counterexample: "All" is among the categories the toolbar passes to
the `AddItemModal` selector, and the form schema accepts "All" as an
item's category. -/
theorem addItemAll_counterexample :
    "All" ∈ toolbarCategories ∧
    formSchemaAccepts ⟨"Pen", some "All", 1⟩ = true := by
  refine ⟨by decide, by decide⟩

/-- C9 amended: the selector offered by the toolbar's `AddItemModal` lists
exactly the nine `CategoryEnum` labels — the eight item categories plus
"All" — and the form schema accepts exactly those nine category values, so
"All" can be submitted as an item's category. -/
theorem addItemCategories_amended :
    toolbarCategories = "All" :: itemCategoryLabels ∧
    (∀ i : FormInput, formSchemaAccepts i = true →
      ∃ c, i.category = some c ∧ c ∈ "All" :: itemCategoryLabels) ∧
    (∀ c ∈ toolbarCategories, formSchemaAccepts ⟨"Pen", some c, 1⟩ = true) := by
  refine ⟨rfl, fun i h => ?_, by decide⟩
  exact ((formSchemaAccepts_iff i).mp h).2.1

/-- Witness for the amended C9 at a concrete input. -/
theorem addItemCategories_amended_witness :
    (∃ c, (some "All" : Option String) = some c ∧ c ∈ "All" :: itemCategoryLabels) ∧
    formSchemaAccepts ⟨"Pen", some "Music", 1⟩ = true :=
  ⟨addItemCategories_amended.2.1 ⟨"Pen", some "All", 1⟩ (by decide),
   addItemCategories_amended.2.2 "Music" (by decide)⟩

/-! ### Helper lemmas: the (name, category) key invariant -/

theorem sameKey_iff {n : String} {c : Category} {r : InventoryItem} :
    sameKey n c r = true ↔ key r = (n, c) := by
  simp [sameKey, key, Prod.ext_iff]

theorem key_updateIf (n : String) (c : Category) (p : ℚ) (t : Nat) (a : InventoryItem) :
    key (if sameKey n c a then { a with price := p, last_updated_dt := t } else a) = key a := by
  split <;> rfl

theorem distinctKeys_upsert {coll : List InventoryItem} (n : String) (c : Category)
    (p : ℚ) (t : Nat) (h : DistinctKeys coll) : DistinctKeys (upsert n c p t coll) := by
  unfold upsert
  split
  · exact List.Pairwise.map _
      (fun a b hab => by rw [key_updateIf, key_updateIf]; exact hab) h
  · rename_i hany
    have h2 : (coll ++ [(⟨n, c, p, t⟩ : InventoryItem)]).Pairwise
        (fun a b => key a ≠ key b) := by
      rw [List.pairwise_append]
      refine ⟨h, List.pairwise_singleton _ _, ?_⟩
      intro a ha b hb
      rw [List.mem_singleton] at hb
      subst hb
      intro hkey
      exact hany (List.any_eq_true.mpr ⟨a, ha, sameKey_iff.mpr hkey⟩)
    exact h2

theorem distinctKeys_delete {coll : List InventoryItem} (n : String) (c : Category)
    (h : DistinctKeys coll) : DistinctKeys (delete n c coll) :=
  List.Pairwise.sublist (List.filter_sublist _) h

theorem distinctKeys_applyOps (ops : List Op) :
    ∀ coll : List InventoryItem, DistinctKeys coll → DistinctKeys (applyOps ops coll) := by
  induction ops with
  | nil => exact fun _ h => h
  | cons op rest ih =>
      intro coll h
      show DistinctKeys (applyOps rest (applyOp coll op))
      refine ih _ ?_
      cases op with
      | upsert n c p t => exact distinctKeys_upsert n c p t h
      | delete n c => exact distinctKeys_delete n c h

theorem filter_map_update (n : String) (c : Category) (p : ℚ) (t : Nat) :
    ∀ coll : List InventoryItem, DistinctKeys coll → coll.any (sameKey n c) = true →
      ((coll.map fun r =>
          if sameKey n c r then { r with price := p, last_updated_dt := t } else r).filter
        (sameKey n c)) = [⟨n, c, p, t⟩] := by
  intro coll
  induction coll with
  | nil => intro _ h; simp at h
  | cons a l ih =>
      intro hd hany
      have hd2 : (∀ b ∈ l, key a ≠ key b) ∧ l.Pairwise (fun x y => key x ≠ key y) :=
        List.pairwise_cons.mp hd
      obtain ⟨hne, hd'⟩ := hd2
      by_cases ha : sameKey n c a = true
      · have hka : key a = (n, c) := sameKey_iff.mp ha
        have hhead :
            (if sameKey n c a then { a with price := p, last_updated_dt := t } else a) =
              (⟨n, c, p, t⟩ : InventoryItem) := by
          rw [if_pos ha]
          obtain ⟨hn, hc⟩ : a.name = n ∧ a.category = c := Prod.mk.injEq .. ▸ hka
          cases a
          simp_all
        have htail :
            ((l.map fun r =>
                if sameKey n c r then { r with price := p, last_updated_dt := t } else r).filter
              (sameKey n c)) = [] := by
          rw [List.filter_eq_nil_iff]
          intro b hb
          rw [List.mem_map] at hb
          obtain ⟨r, hr, rfl⟩ := hb
          intro hk0
          have hk : key (if sameKey n c r then
              { r with price := p, last_updated_dt := t } else r) = (n, c) :=
            sameKey_iff.mp hk0
          rw [key_updateIf] at hk
          exact hne r hr (hka.trans hk.symm)
        have hmatch : sameKey n c (⟨n, c, p, t⟩ : InventoryItem) = true := by
          simp [sameKey]
        simp only [List.map_cons, hhead, List.filter_cons, hmatch, if_pos, htail]
      · have hany' : l.any (sameKey n c) = true := by
          rcases List.any_eq_true.mp hany with ⟨r, hr, hrk⟩
          rcases List.mem_cons.mp hr with rfl | hr'
          · exact absurd hrk ha
          · exact List.any_eq_true.mpr ⟨r, hr', hrk⟩
        have hab : (sameKey n c a) = false := Bool.not_eq_true _ ▸ ha
        simp only [List.map_cons, if_neg ha, List.filter_cons, hab, Bool.false_eq_true,
          if_false]
        exact ih hd' hany'

theorem filter_sameKey_upsert {coll : List InventoryItem} (n : String) (c : Category)
    (p : ℚ) (t : Nat) (h : DistinctKeys coll) :
    (upsert n c p t coll).filter (sameKey n c) = [⟨n, c, p, t⟩] := by
  unfold upsert
  split
  · rename_i hany
    exact filter_map_update n c p t coll h hany
  · rename_i hany
    rw [List.filter_append]
    have h1 : coll.filter (sameKey n c) = [] := by
      rw [List.filter_eq_nil_iff]
      intro r hr hrk
      exact hany (List.any_eq_true.mpr ⟨r, hr, hrk⟩)
    have h2 : ([(⟨n, c, p, t⟩ : InventoryItem)]).filter (sameKey n c) = [⟨n, c, p, t⟩] := by
      simp [sameKey]
    rw [h1, h2]
    rfl

/-! ### Claim theorems: query engine -/

/-- C1: starting from the empty collection, every sequence of upserts and
deletes preserves uniqueness of the (name, category) key; and upserting the
same (name, category) twice leaves exactly one record with that key,
holding the latest price and the refreshed timestamp. -/
theorem upsertUniqueKey :
    (∀ ops : List Op, DistinctKeys (applyOps ops [])) ∧
    (∀ (n : String) (c : Category) (p₁ : ℚ) (t₁ : Nat) (p₂ : ℚ) (t₂ : Nat)
        (coll : List InventoryItem), DistinctKeys coll →
      (upsert n c p₂ t₂ (upsert n c p₁ t₁ coll)).filter (sameKey n c) =
        [⟨n, c, p₂, t₂⟩]) :=
  ⟨fun ops => distinctKeys_applyOps ops [] List.Pairwise.nil,
   fun n c p₁ t₁ p₂ t₂ _ h =>
     filter_sameKey_upsert n c p₂ t₂ (distinctKeys_upsert n c p₁ t₁ h)⟩

/-- Witness for C1: a concrete operation sequence and a concrete double
upsert of the same key. -/
theorem upsertUniqueKey_witness :
    DistinctKeys (applyOps [.upsert "Pen" .music 2 5, .delete "Pen" .music] []) ∧
    (upsert "Pen" Category.music 2 1
        (upsert "Pen" Category.music (mkRat 3 2) 0 [])).filter
      (sameKey "Pen" Category.music) = [⟨"Pen", Category.music, 2, 1⟩] :=
  ⟨upsertUniqueKey.1 _,
   upsertUniqueKey.2 "Pen" Category.music (mkRat 3 2) 0 2 1 [] List.Pairwise.nil⟩

/-! ### Helper lemmas: query pagination and filtering -/

theorem matchesFilters_empty (r : InventoryItem) : matchesFilters {} r = true := rfl

theorem length_sortRecords (field ord : String) (l : List InventoryItem) :
    (sortRecords field ord l).length = l.length :=
  (List.perm_insertionSort _ l).length_eq

/-- C2: an empty filter set matches every record and page 1 of such a
query holds exactly min(limit, collection size) records; a page past the
end of the filtered result set yields an empty page, not an error; and a
category filter naming a label no record carries matches nothing. -/
theorem queryEdgeCases :
    (∀ r : InventoryItem, matchesFilters {} r = true) ∧
    (∀ (limit : Nat) (field ord : String) (coll : List InventoryItem),
      (query {} 1 limit field ord coll).length = min limit coll.length) ∧
    (∀ (f : QueryFilters) (page limit : Nat) (field ord : String)
        (coll : List InventoryItem),
      (coll.filter (matchesFilters f)).length ≤ (page - 1) * limit →
      query f page limit field ord coll = []) ∧
    (∀ (c : String) (page limit : Nat) (field ord : String)
        (coll : List InventoryItem),
      (c ∉ coll.map fun r => r.category.label) →
      query { category := some c } page limit field ord coll = []) := by
  refine ⟨fun r => rfl, ?_, ?_, ?_⟩
  · intro limit field ord coll
    have hfil : coll.filter (matchesFilters {}) = coll :=
      List.filter_eq_self.mpr fun a _ => rfl
    show (paginate 1 limit (sortRecords field ord (coll.filter (matchesFilters {})))).length
        = min limit coll.length
    rw [hfil]
    unfold paginate
    simp [List.length_take, length_sortRecords]
  · intro f page limit field ord coll h
    have hnil : (sortRecords field ord (coll.filter (matchesFilters f))).drop
        ((page - 1) * limit) = [] :=
      List.drop_eq_nil_of_le (by rw [length_sortRecords]; exact h)
    show paginate page limit (sortRecords field ord (coll.filter (matchesFilters f))) = []
    unfold paginate
    rw [hnil, List.take_nil]
  · intro c page limit field ord coll h
    have hfil : coll.filter (matchesFilters { category := some c }) = [] := by
      rw [List.filter_eq_nil_iff]
      intro r hr hm
      have hlab : r.category.label = c := by
        simpa [matchesFilters] using hm
      exact h (hlab ▸ List.mem_map_of_mem _ hr)
    show paginate page limit (sortRecords field ord
        (coll.filter (matchesFilters { category := some c }))) = []
    rw [hfil]
    unfold paginate sortRecords
    simp

/-- Witness for C2 at a concrete two-record collection. -/
theorem queryEdgeCases_witness :
    ((List.filter (matchesFilters {})
        [(⟨"Pen", Category.music, 2, 0⟩ : InventoryItem),
         ⟨"Book", Category.books, 3, 1⟩]).length ≤ (3 - 1) * 5) ∧
    query {} 3 5 "price" "asc"
        [(⟨"Pen", Category.music, 2, 0⟩ : InventoryItem), ⟨"Book", Category.books, 3, 1⟩] = [] ∧
    ("Toys" ∉ List.map (fun r => r.category.label)
        [(⟨"Pen", Category.music, 2, 0⟩ : InventoryItem), ⟨"Book", Category.books, 3, 1⟩]) ∧
    query { category := some "Toys" } 1 10 "price" "asc"
        [(⟨"Pen", Category.music, 2, 0⟩ : InventoryItem), ⟨"Book", Category.books, 3, 1⟩] = [] :=
  ⟨by decide,
   queryEdgeCases.2.2.1 {} 3 5 "price" "asc" _ (by decide),
   by decide,
   queryEdgeCases.2.2.2 "Toys" 1 10 "price" "asc" _ (by decide)⟩

/-! ### Helper lemmas: the sort order -/

theorem lexLeB_total {κ : Type} [LinearOrder κ] (k : InventoryItem → κ)
    (a b : InventoryItem) : lexLeB k a b = true ∨ lexLeB k b a = true := by
  simp only [lexLeB, Bool.or_eq_true, Bool.and_eq_true, decide_eq_true_eq]
  rcases lt_trichotomy (k a) (k b) with h | h | h
  · exact Or.inl (Or.inl h)
  · rcases le_total a.name b.name with hn | hn
    · exact Or.inl (Or.inr ⟨h, hn⟩)
    · exact Or.inr (Or.inr ⟨h.symm, hn⟩)
  · exact Or.inr (Or.inl h)

theorem lexLeB_trans {κ : Type} [LinearOrder κ] (k : InventoryItem → κ)
    (a b d : InventoryItem) (h1 : lexLeB k a b = true) (h2 : lexLeB k b d = true) :
    lexLeB k a d = true := by
  simp only [lexLeB, Bool.or_eq_true, Bool.and_eq_true, decide_eq_true_eq] at h1 h2 ⊢
  rcases h1 with h1 | ⟨h1e, h1n⟩
  · rcases h2 with h2 | ⟨h2e, h2n⟩
    · exact Or.inl (lt_trans h1 h2)
    · exact Or.inl (lt_of_lt_of_le h1 (le_of_eq h2e))
  · rcases h2 with h2 | ⟨h2e, h2n⟩
    · exact Or.inl (lt_of_le_of_lt (le_of_eq h1e) h2)
    · exact Or.inr ⟨h1e.trans h2e, le_trans h1n h2n⟩

theorem lexLeB_name_le {κ : Type} [LinearOrder κ] (k : InventoryItem → κ)
    {a b : InventoryItem} (hk : k a = k b) (h : lexLeB k a b = true) :
    a.name ≤ b.name := by
  simp only [lexLeB, Bool.or_eq_true, Bool.and_eq_true, decide_eq_true_eq] at h
  rcases h with h | ⟨-, hn⟩
  · exact absurd h (by rw [hk]; exact lt_irrefl _)
  · exact hn

theorem sortLe_total (field ord : String) (a b : InventoryItem) :
    sortLe field ord a b = true ∨ sortLe field ord b a = true := by
  unfold sortLe
  split_ifs <;> exact lexLeB_total _ a b

theorem sortLe_trans (field ord : String) (a b d : InventoryItem)
    (h1 : sortLe field ord a b = true) (h2 : sortLe field ord b d = true) :
    sortLe field ord a d = true := by
  unfold sortLe at h1 h2 ⊢
  split_ifs at h1 h2 ⊢ <;> exact lexLeB_trans _ a b d h1 h2

theorem sortLe_name_of_keyEq (field ord : String) (a b : InventoryItem)
    (hk : sortKeyEq field a b = true) (h : sortLe field ord a b = true) :
    a.name ≤ b.name := by
  unfold sortKeyEq at hk
  unfold sortLe at h
  by_cases h1 : field = "name"
  · rw [if_pos h1] at hk
    exact le_of_eq (of_decide_eq_true hk)
  by_cases h2 : field = "category"
  · rw [if_neg h1, if_pos h2] at hk
    have hkp : a.category.label = b.category.label := of_decide_eq_true hk
    by_cases hd : ord = "desc"
    · rw [if_pos hd, if_neg h1, if_pos h2] at h
      exact lexLeB_name_le (fun r => OrderDual.toDual r.category.label)
        (congrArg (fun x : String => OrderDual.toDual x) hkp) h
    · rw [if_neg hd, if_neg h1, if_pos h2] at h
      exact lexLeB_name_le _ hkp h
  by_cases h3 : field = "price"
  · rw [if_neg h1, if_neg h2, if_pos h3] at hk
    have hkp : a.price = b.price := of_decide_eq_true hk
    by_cases hd : ord = "desc"
    · rw [if_pos hd, if_neg h1, if_neg h2, if_pos h3] at h
      exact lexLeB_name_le (fun r => OrderDual.toDual r.price)
        (congrArg (fun x : ℚ => OrderDual.toDual x) hkp) h
    · rw [if_neg hd, if_neg h1, if_neg h2, if_pos h3] at h
      exact lexLeB_name_le _ hkp h
  · rw [if_neg h1, if_neg h2, if_neg h3] at hk
    have hkp : a.last_updated_dt = b.last_updated_dt := of_decide_eq_true hk
    by_cases hd : ord = "desc"
    · rw [if_pos hd, if_neg h1, if_neg h2, if_neg h3] at h
      exact lexLeB_name_le (fun r => OrderDual.toDual r.last_updated_dt)
        (congrArg (fun x : Nat => OrderDual.toDual x) hkp) h
    · rw [if_neg hd, if_neg h1, if_neg h2, if_neg h3] at h
      exact lexLeB_name_le _ hkp h

theorem sortRecords_sorted (field ord : String) (l : List InventoryItem) :
    List.Sorted (fun a b => sortLe field ord a b = true) (sortRecords field ord l) := by
  haveI : IsTotal InventoryItem (fun a b => sortLe field ord a b = true) :=
    ⟨fun a b => sortLe_total field ord a b⟩
  haveI : IsTrans InventoryItem (fun a b => sortLe field ord a b = true) :=
    ⟨fun a b d => sortLe_trans field ord a b d⟩
  exact List.sorted_insertionSort _ l

theorem sortRecords_perm (field ord : String) (l : List InventoryItem) :
    (sortRecords field ord l).Perm l :=
  List.perm_insertionSort _ l

theorem take_drop_isInfix {α : Type} (n m : Nat) (l : List α) :
    (l.drop n).take m <:+: l := by
  refine ⟨l.take n, l.drop (n + m), ?_⟩
  have h1 : l.drop (n + m) = (l.drop n).drop m := by
    rw [List.drop_drop, Nat.add_comm]
  rw [List.append_assoc, h1, List.take_append_drop, List.take_append_drop]

/-- C3: the page a query returns is a contiguous slice of the full
filtered result set as sorted by the requested field and order; that
sorted set is a permutation of the filtered records, it is sorted with
respect to the requested order, and records agreeing on the sort field
appear in ascending name order (the deterministic tie-break), so equal
queries over equal collections return identical sequences. -/
theorem querySortedSlice (f : QueryFilters) (page limit : Nat) (field ord : String)
    (coll : List InventoryItem) :
    query f page limit field ord coll <:+:
        sortRecords field ord (coll.filter (matchesFilters f)) ∧
    (sortRecords field ord (coll.filter (matchesFilters f))).Perm
        (coll.filter (matchesFilters f)) ∧
    List.Sorted (fun a b => sortLe field ord a b = true)
        (sortRecords field ord (coll.filter (matchesFilters f))) ∧
    (sortRecords field ord (coll.filter (matchesFilters f))).Pairwise
        (fun a b => sortKeyEq field a b = true → a.name ≤ b.name) := by
  refine ⟨take_drop_isInfix _ _ _, sortRecords_perm _ _ _, sortRecords_sorted _ _ _, ?_⟩
  exact (sortRecords_sorted field ord _).imp
    fun hab hk => sortLe_name_of_keyEq field ord _ _ hk hab

/-! ### Helper lemmas: aggregation as a partition -/

theorem sum_map_add_distrib {κ M : Type} [AddCommMonoid M] (f g : κ → M) (D : List κ) :
    (D.map fun c => f c + g c).sum = (D.map f).sum + (D.map g).sum := by
  induction D with
  | nil => simp
  | cons c D ih =>
      simp only [List.map_cons, List.sum_cons, ih]
      abel

theorem sum_map_ite_zero {κ M : Type} [DecidableEq κ] [AddCommMonoid M] (x : κ) (v : M) :
    ∀ D : List κ, x ∉ D → (D.map fun c => if x = c then v else 0).sum = 0 := by
  intro D
  induction D with
  | nil => simp
  | cons c D ih =>
      intro hx
      have hxc : x ≠ c := fun h => hx (h ▸ List.mem_cons_self c D)
      simp only [List.map_cons, List.sum_cons, if_neg hxc, zero_add]
      exact ih fun h => hx (List.mem_cons_of_mem _ h)

theorem sum_map_single {κ M : Type} [DecidableEq κ] [AddCommMonoid M] (x : κ) (v : M) :
    ∀ D : List κ, D.Nodup → x ∈ D → (D.map fun c => if x = c then v else 0).sum = v := by
  intro D
  induction D with
  | nil => intro _ h; simp at h
  | cons c D ih =>
      intro hnd hx
      obtain ⟨hc, hnd'⟩ := List.nodup_cons.mp hnd
      rcases List.mem_cons.mp hx with rfl | hx'
      · rw [List.map_cons, List.sum_cons, if_pos rfl, sum_map_ite_zero x v D hc, add_zero]
      · have hxc : x ≠ c := fun h => hc (h ▸ hx')
        simp only [List.map_cons, List.sum_cons, if_neg hxc, zero_add]
        exact ih hnd' hx'

theorem sum_filter_partition {α κ M : Type} [DecidableEq κ] [AddCommMonoid M]
    (k : α → κ) (g : α → M) :
    ∀ (l : List α) (D : List κ), D.Nodup → (∀ a ∈ l, k a ∈ D) →
      (D.map fun c => ((l.filter fun a => decide (k a = c)).map g).sum).sum =
        (l.map g).sum := by
  intro l
  induction l with
  | nil => intro D _ _; simp
  | cons a l ih =>
      intro D hD hmem
      have hstep : ∀ c ∈ D,
          (((a :: l).filter fun x => decide (k x = c)).map g).sum =
            (if k a = c then g a else 0) +
              ((l.filter fun x => decide (k x = c)).map g).sum := by
        intro c _
        rw [List.filter_cons]
        by_cases h : k a = c
        · rw [if_pos (decide_eq_true h), if_pos h, List.map_cons, List.sum_cons]
        · rw [if_neg (fun hh => h (of_decide_eq_true hh)), if_neg h, zero_add]
      rw [List.map_congr_left hstep, sum_map_add_distrib,
        sum_map_single (k a) (g a) D hD (hmem a (List.mem_cons_self a l)),
        ih D hD fun b hb => hmem b (List.mem_cons_of_mem a hb)]
      simp

theorem length_eq_sum_map_one {α : Type} (l : List α) :
    l.length = (l.map fun _ => (1 : Nat)).sum := by
  induction l with
  | nil => rfl
  | cons a l ih =>
      rw [List.map_cons, List.sum_cons, List.length_cons, ih]
      omega

theorem category_label_ne_all (cat : Category) : cat.label ≠ "all" := by
  cases cat <;> decide

/-- C4: the count and the summed price that `Aggregate("all")` reports
equal, respectively, the sum over every distinct category present in the
collection of the count and of the summed price reported by
`Aggregate(category)`. -/
theorem aggregateAllPartition (coll : List InventoryItem) :
    (aggregate "all" coll).1 =
      (((coll.map fun r => r.category.label).dedup).map
        fun c => (aggregate c coll).1).sum ∧
    (aggregate "all" coll).2 =
      (((coll.map fun r => r.category.label).dedup).map
        fun c => (aggregate c coll).2).sum := by
  have hD : ((coll.map fun r => r.category.label).dedup).Nodup := List.nodup_dedup _
  have hmem : ∀ r ∈ coll,
      r.category.label ∈ (coll.map fun r => r.category.label).dedup :=
    fun r hr => List.mem_dedup.mpr (List.mem_map_of_mem _ hr)
  have hne : ∀ c ∈ (coll.map fun r => r.category.label).dedup, ¬ (c = "all") := by
    intro c hc
    rcases List.mem_map.mp (List.mem_dedup.mp hc) with ⟨r, -, rfl⟩
    exact category_label_ne_all r.category
  have hagg1 : ∀ c ∈ (coll.map fun r => r.category.label).dedup,
      (aggregate c coll).1 =
        ((coll.filter fun r => decide (r.category.label = c)).map
          fun _ => (1 : Nat)).sum := by
    intro c hc
    unfold aggregate
    rw [if_neg (hne c hc)]
    exact length_eq_sum_map_one _
  have hagg2 : ∀ c ∈ (coll.map fun r => r.category.label).dedup,
      (aggregate c coll).2 =
        ((coll.filter fun r => decide (r.category.label = c)).map
          fun r => r.price).sum := by
    intro c hc
    unfold aggregate
    rw [if_neg (hne c hc)]
  constructor
  · rw [List.map_congr_left hagg1,
      sum_filter_partition (fun r => r.category.label) (fun _ => (1 : Nat)) coll _ hD hmem]
    unfold aggregate
    rw [if_pos rfl]
    exact length_eq_sum_map_one coll
  · rw [List.map_congr_left hagg2,
      sum_filter_partition (fun r => r.category.label) (fun r => r.price) coll _ hD hmem]
    unfold aggregate
    rw [if_pos rfl]

end Inventory
